import Mathlib

/-!
Verification of the ethereumjs-account module (src/src/index.ts, with the
historical variant src/index.js) against its specification.

Byte strings are modelled as `List Nat` with the convention that entries are
byte values (< 256).  The external `rlp` dependency is modelled from the RLP
specification, restricted to the only shape the account codec produces and
consumes: a flat list of byte strings.  The external merkle-patricia-tree
store is modelled from the Store collaborator contract (spec section 6):
versioned key-value maps addressed by an opaque root handle, plus a flat
content-addressed keyspace for code, with copy-on-write puts.  The keccak256
hash is an external collaborator and is passed as a parameter.
-/

namespace EthAccount

abbrev Bytes := List Nat

/-- keccak256 of the empty string, the `KECCAK256_NULL` constant
(c5d2...a470) from ethereumjs-util. -/
def KECCAK256_NULL : Bytes :=
  [0xc5, 0xd2, 0x46, 0x01, 0x86, 0xf7, 0x23, 0x3c,
   0x92, 0x7e, 0x7d, 0xb2, 0xdc, 0xc7, 0x03, 0xc0,
   0xe5, 0x00, 0xb6, 0x53, 0xca, 0x82, 0x27, 0x3b,
   0x7b, 0xfa, 0xd8, 0x04, 0x5d, 0x85, 0xa4, 0x70]

/-- keccak256 of the RLP encoding of the empty string, i.e. the root hash of
an empty trie, the `KECCAK256_RLP` constant (56e8...b421) from
ethereumjs-util. -/
def KECCAK256_RLP : Bytes :=
  [0x56, 0xe8, 0x1f, 0x17, 0x1b, 0xcc, 0x55, 0xa6,
   0xff, 0x83, 0x45, 0xe6, 0x92, 0xc0, 0xf8, 0x6e,
   0x5b, 0x48, 0xe0, 0x1b, 0x99, 0x6c, 0xad, 0xc0,
   0x01, 0x62, 0x2f, 0xb5, 0xe3, 0x63, 0xb4, 0x21]

/-- Minimal big-endian byte representation of a natural number (empty for 0),
as used by RLP length prefixes. -/
def beBytes (n : Nat) : Bytes :=
  if h : n = 0 then [] else beBytes (n / 256) ++ [n % 256]
termination_by n
decreasing_by exact Nat.div_lt_self (Nat.pos_of_ne_zero h) (by decide)

/-- Big-endian interpretation of a byte string as a natural number. -/
def fromBE (b : Bytes) : Nat :=
  b.foldl (fun acc x => acc * 256 + x) 0

/-- RLP length prefix: `encodeLength(len, offset)` from the rlp library. -/
def encodeLength (len offset : Nat) : Bytes :=
  if len < 56 then [len + offset]
  else ((beBytes len).length + offset + 55) :: beBytes len

/-- RLP encoding of a single byte string (`rlp.encode` on a buffer). -/
def encStr (b : Bytes) : Bytes :=
  if b.length = 1 ∧ b.headI < 128 then b
  else encodeLength b.length 128 ++ b

/-- RLP encoding of a flat list of byte strings (`rlp.encode` on an array of
buffers), the wire format of an account: the payload is the concatenation of
the encoded items, prefixed with a list header. -/
def encList (xs : List Bytes) : Bytes :=
  let payload := (xs.map encStr).flatten
  encodeLength payload.length 192 ++ payload

/-- Decode one RLP string item from the front of a byte string, returning the
item and the remaining bytes.  List headers (first byte >= 0xc0) are rejected:
the account payload consists of strings only. -/
def decStr (b : Bytes) : Option (Bytes × Bytes) :=
  match b with
  | [] => none
  | b0 :: rest =>
    if b0 < 128 then some ([b0], rest)
    else if b0 ≤ 183 then
      let len := b0 - 128
      if rest.length < len then none
      else some (rest.take len, rest.drop len)
    else if b0 ≤ 191 then
      let ll := b0 - 183
      if rest.length < ll then none
      else
        let len := fromBE (rest.take ll)
        let rest2 := rest.drop ll
        if rest2.length < len then none
        else some (rest2.take len, rest2.drop len)
    else none

/-- Any successfully decoded item consumes at least one byte. -/
theorem decStr_length_lt (b item rest : Bytes)
    (h : decStr b = some (item, rest)) : rest.length < b.length := by
  match b with
  | [] => simp [decStr] at h
  | b0 :: tl =>
    simp only [decStr] at h
    split at h
    · obtain ⟨rfl, rfl⟩ := by
        simpa using h
      simp
    · split at h
      · split at h
        · exact absurd h (by simp)
        · obtain ⟨rfl, rfl⟩ := by
            simpa using h
          simp only [List.length_drop, List.length_cons]
          omega
      · split at h
        · split at h
          · exact absurd h (by simp)
          · split at h
            · exact absurd h (by simp)
            · obtain ⟨rfl, rfl⟩ := by
                simpa using h
              simp only [List.length_drop, List.length_cons]
              omega
        · exact absurd h (by simp)

/-- Decode a sequence of consecutive RLP string items until the input is
exhausted. -/
def decItems (b : Bytes) : Option (List Bytes) :=
  if hb : b = [] then some []
  else
    match hd : decStr b with
    | none => none
    | some (item, rest) => (decItems rest).map (fun items => item :: items)
termination_by b.length
decreasing_by exact decStr_length_lt b item rest hd

/-- Decode the account wire format: a single RLP list of byte strings
consuming the whole input (`rlp.decode` rejects trailing bytes). -/
def rlpDecodeStrings (b : Bytes) : Option (List Bytes) :=
  match b with
  | [] => none
  | b0 :: rest =>
    if b0 < 192 then none
    else if b0 ≤ 247 then
      if rest.length = b0 - 192 then decItems rest else none
    else
      let ll := b0 - 247
      if ll ≤ rest.length then
        if (rest.drop ll).length = fromBE (rest.take ll) then
          decItems (rest.drop ll)
        else none
      else none

/-! ## Account data model (src/src/index.ts) -/

/-- The account record: four byte-string fields
(`AccountProps` / the four public fields of `Account`). -/
structure Account where
  nonce : Bytes
  balance : Bytes
  stateRoot : Bytes
  codeHash : Bytes
deriving Repr, DecidableEq

/-- `serialize()`: `rlp.encode([nonce, balance, stateRoot, codeHash])`. -/
def Account.serialize (a : Account) : Bytes :=
  encList [a.nonce, a.balance, a.stateRoot, a.codeHash]

/-- `isContract()`: `codeHash.toString('hex') !== KECCAK256_NULL_S`. -/
def Account.isContract (a : Account) : Bool :=
  a.codeHash != KECCAK256_NULL

/-- `isEmpty()` from src/src/index.ts: balance, nonce and codeHash checks
only (no stateRoot condition). -/
def Account.isEmpty (a : Account) : Bool :=
  a.balance == ([] : Bytes) && a.nonce == ([] : Bytes) &&
    a.codeHash == KECCAK256_NULL

/-- `isEmpty()` from the historical variant src/index.js, which additionally
requires `stateRoot` to be the empty-trie root. -/
def isEmptyV1 (a : Account) : Bool :=
  a.balance == ([] : Bytes) && a.nonce == ([] : Bytes) &&
    a.stateRoot == KECCAK256_RLP && a.codeHash == KECCAK256_NULL

/-! ## Display operation (`toJSON`) -/

/-- Lowercase hex digit of a nibble, as produced by `Buffer.toString('hex')`.
48 is the code of the zero digit, 97 the code of the letter a. -/
def hexDigit (n : Nat) : Char :=
  if n < 10 then Char.ofNat (48 + n) else Char.ofNat (87 + n)

/-- The hex digits of a byte string (two lowercase digits per byte). -/
def hexChars : Bytes → List Char
  | [] => []
  | x :: rest => hexDigit (x / 16) :: hexDigit (x % 16) :: hexChars rest

/-- A 0x-prefixed lowercase-hex rendering of a byte string:
the template `0x` + `buf.toString('hex')` used in `toJSON`. -/
def hex0x (b : Bytes) : String :=
  String.mk ('0' :: 'x' :: hexChars b)

/-- The labeled object produced by `toJSON(true)`: named string fields. -/
structure LabeledJson where
  nonce : String
  balance : String
  stateRoot : String
  codeHash : String
deriving Repr, DecidableEq

/-- The value produced by `toJSON`: a labeled object or a plain array
of strings (`baToJSON` of the raw field list). -/
inductive JsonView where
  | labeled (obj : LabeledJson)
  | plain (fields : List String)
deriving Repr, DecidableEq

/-- `toJSON(label)` from src/src/index.ts lines 202-215. -/
def Account.toJSON (a : Account) (label : Bool) : JsonView :=
  if label then
    JsonView.labeled
      ⟨hex0x a.nonce, hex0x a.balance, hex0x a.stateRoot, hex0x a.codeHash⟩
  else
    JsonView.plain [hex0x a.nonce, hex0x a.balance, hex0x a.stateRoot, hex0x a.codeHash]

/-- Checks that a string is 0x-prefixed lowercase hex. -/
def isHex0xLower (s : String) : Bool :=
  match s.data with
  | '0' :: 'x' :: rest =>
    rest.all (fun ch =>
      decide (('0' ≤ ch ∧ ch ≤ '9') ∨ ('a' ≤ ch ∧ ch ≤ 'f')))
  | _ => false

/-! ## Constructor (src/src/index.ts lines 127-188) -/

/-- The errors the constructor throws. -/
inductive CtorError where
  | wrongFieldCount   -- 'wrong number of fields in data'
  | invalidData       -- 'invalid data'
  | rlpError          -- rlp.decode rejected the input
  | stateRootLength   -- 'The field stateRoot must be exactly 32 bytes.'
  | codeHashLength    -- 'The field codeHash must be exactly 32 bytes.'
deriving Repr, DecidableEq

/-- The four local variables of the constructor before defaulting. -/
structure CtorFields where
  nonce : Option Bytes
  balance : Option Bytes
  stateRoot : Option Bytes
  codeHash : Option Bytes
deriving Repr, DecidableEq

/-- One iteration of the constructor's `forEach` over the input sequence.
The source `switch` on the index has no `break` statements, so the arm for
index `i` falls through into every later arm: element `i` is written to
field `i` and to every field after it. -/
def applyElem (st : CtorFields) (i : Nat) (v : Bytes) : CtorFields :=
  { nonce := if i = 0 then some v else st.nonce,
    balance := if i ≤ 1 then some v else st.balance,
    stateRoot := if i ≤ 2 then some v else st.stateRoot,
    codeHash := if i ≤ 3 then some v else st.codeHash }

/-- The constructor's whole `forEach` loop over an ordered sequence. -/
def assignFields (xs : List Bytes) : CtorFields :=
  xs.enum.foldl (fun st p => applyElem st p.1 p.2) ⟨none, none, none, none⟩

/-- Defaulting and validation at the end of the constructor:
`nonce`/`balance` default to the empty byte string, `stateRoot` to the
empty-trie root, `codeHash` to the empty-string hash; then the two hash
fields must be exactly 32 bytes. -/
def finishCtor (f : CtorFields) : Except CtorError Account :=
  let nonce := f.nonce.getD []
  let balance := f.balance.getD []
  let stateRoot := f.stateRoot.getD KECCAK256_RLP
  let codeHash := f.codeHash.getD KECCAK256_NULL
  if stateRoot.length ≠ 32 then Except.error CtorError.stateRootLength
  else if codeHash.length ≠ 32 then Except.error CtorError.codeHashLength
  else Except.ok ⟨nonce, balance, stateRoot, codeHash⟩

/-- The ordered-sequence arm of the constructor: more than 4 elements throw,
otherwise the `forEach` loop runs and the record is defaulted and
validated. -/
def fromList (xs : List Bytes) : Except CtorError Account :=
  if xs.length > 4 then Except.error CtorError.wrongFieldCount
  else finishCtor (assignFields xs)

/-- The constructor's input, modelled post-coercion: elements and field
values are already byte strings (`toBuffer` of non-byte shapes is outside
the embedded fragment).  A hex-string input is converted to bytes by the
source before the Buffer branch, so it is covered by `bytes`. -/
inductive DataInput where
  | bytes (b : Bytes)
  | arr (xs : List Bytes)
  | obj (nonce balance stateRoot codeHash : Option Bytes)
  | other
deriving Repr, DecidableEq

/-- The constructor `new Account(data)`.  `none` models an absent argument.
A Buffer input is RLP-decoded and then handled like an ordered sequence; a
keyed object contributes exactly its present fields; any other truthy input
throws 'invalid data'. -/
def mkAccount : Option DataInput → Except CtorError Account
  | none => finishCtor ⟨none, none, none, none⟩
  | some (DataInput.bytes b) =>
    match rlpDecodeStrings b with
    | none => Except.error CtorError.rlpError
    | some xs => fromList xs
  | some (DataInput.arr xs) => fromList xs
  | some (DataInput.obj n b s c) => finishCtor ⟨n, b, s, c⟩
  | some DataInput.other => Except.error CtorError.invalidData

/-! ## Store collaborator model and the storage bridge -/

/-- An opaque store failure. -/
inductive StoreErr where
  | storeFailure
deriving Repr, DecidableEq

/-- Association-list lookup (first match wins). -/
def lookupA {α : Type} (l : List (Bytes × α)) (k : Bytes) : Option α :=
  (l.find? (fun p => p.1 == k)).map (fun p => p.2)

/-- The root handle the external trie derives for a given key-value content;
a canonical encoding of the content stands in for the Merkle root hash
(idealizing hash collision-freeness). -/
def rootOf (m : List (Bytes × Bytes)) : Bytes :=
  encList (m.flatMap (fun p => [p.1, p.2]))

/-- The external merkle-patricia-tree handle, modelled from the Store
collaborator contract of the spec: a current `root`, the shared persisted
versions `db` (root to key-value map; earlier entries are never overwritten,
which is the copy-on-write guarantee), a flat content-addressed keyspace
`raw` for code, and flags selecting a store whose next put / putRaw / getRaw
fails. -/
structure Trie where
  root : Bytes
  db : List (Bytes × List (Bytes × Bytes))
  raw : List (Bytes × Bytes)
  putErr : Option StoreErr
  putRawErr : Option StoreErr
  getRawErr : Option StoreErr
deriving Repr, DecidableEq

/-- `trie.copy()`: an independent handle sharing the persisted content. -/
def Trie.copy (t : Trie) : Trie := t

/-- `t.put(key, val, cb)`: fails when the store reports an error; otherwise
inserts the binding into the map at the current root, persists the new
version under its new root without touching older versions, and advances
the handle's root. -/
def Trie.putKV (t : Trie) (k v : Bytes) : Except StoreErr Trie :=
  match t.putErr with
  | some e => Except.error e
  | none =>
    let m := (lookupA t.db t.root).getD []
    let m2 := (k, v) :: m
    let r2 := rootOf m2
    Except.ok { t with root := r2, db := t.db ++ [(r2, m2)] }

/-- `t.putRaw(key, value, cb)`: flat content-addressed write. -/
def Trie.putRawOp (t : Trie) (k v : Bytes) : Except StoreErr Trie :=
  match t.putRawErr with
  | some e => Except.error e
  | none => Except.ok { t with raw := (k, v) :: t.raw }

/-- `t.getRaw(key, cb)`: flat content-addressed read
(`none` inside `ok` means absent). -/
def Trie.getRawOp (t : Trie) (k : Bytes) : Except StoreErr (Option Bytes) :=
  match t.getRawErr with
  | some e => Except.error e
  | none => Except.ok (lookupA t.raw k)

/-- `getStorage(trie, key, cb)`: copy the handle, point it at the record's
stateRoot, and look the key up in that version (`none` means absent). -/
def Account.getStorage (a : Account) (trie : Trie) (k : Bytes) : Option Bytes :=
  let t := { trie.copy with root := a.stateRoot }
  lookupA ((lookupA t.db t.root).getD []) k

/-- The observable outcome of a `setStorage` call: the record afterwards, the
caller's view of the store afterwards, and the sequence of callback
invocations (the callback takes no arguments). -/
structure StorageWriteResult where
  account : Account
  trie : Trie
  cbCalls : List Unit
deriving Repr, DecidableEq

/-- `setStorage(trie, key, val, cb)` from src/src/index.ts lines 334-342:
branch the trie at the record's stateRoot, put, and only on success write the
branch's new root back into the record; in both branches the callback is
invoked once with no arguments. -/
def Account.setStorage (a : Account) (trie : Trie) (k v : Bytes) :
    StorageWriteResult :=
  let t := { trie.copy with root := a.stateRoot }
  match t.putKV k v with
  | Except.error _ => ⟨a, trie, [()]⟩
  | Except.ok t2 => ⟨{ a with stateRoot := t2.root }, { trie with db := t2.db }, [()]⟩

/-- The observable outcome of a `setCode` call: the record afterwards, the
store afterwards, the two callback arguments, and the putRaw calls made. -/
structure CodeWriteResult where
  account : Account
  trie : Trie
  cbErr : Option StoreErr
  cbCodeHash : Bytes
  putRawCalls : List (Bytes × Bytes)
deriving Repr, DecidableEq

/-- `setCode(trie, code, cb)` from src/src/index.ts lines 275-287: the
record's codeHash is assigned the new hash first; when that hash is the
empty-string hash the store is not touched and the callback receives an
empty buffer; otherwise putRaw is attempted and the callback receives its
error (if any) and the hash. -/
def Account.setCode (keccak : Bytes → Bytes) (a : Account) (trie : Trie)
    (code : Bytes) : CodeWriteResult :=
  let codeHash := keccak code
  let a2 := { a with codeHash := codeHash }
  if codeHash = KECCAK256_NULL then
    ⟨a2, trie, none, [], []⟩
  else
    match trie.putRawOp codeHash code with
    | Except.error e => ⟨a2, trie, some e, codeHash, [(codeHash, code)]⟩
    | Except.ok t2 => ⟨a2, t2, none, codeHash, [(codeHash, code)]⟩

/-- The observable outcome of a `getCode` call: the callback's error and
value arguments, and the getRaw calls made. -/
structure CodeReadResult where
  cbErr : Option StoreErr
  cbValue : Option Bytes
  getRawCalls : List Bytes
deriving Repr, DecidableEq

/-- `getCode(trie, cb)` from src/src/index.ts lines 231-238: a non-contract
record yields an empty buffer without touching the store; otherwise the code
is fetched by its content address. -/
def Account.getCode (a : Account) (trie : Trie) : CodeReadResult :=
  if a.isContract = false then ⟨none, some [], []⟩
  else
    match trie.getRawOp a.codeHash with
    | Except.error e => ⟨some e, none, [a.codeHash]⟩
    | Except.ok v => ⟨none, v, [a.codeHash]⟩

/-- A concrete stand-in for the external keccak256 collaborator, agreeing
with it on the empty string and separating the witness inputs used below. -/
def hashModel (b : Bytes) : Bytes :=
  if b = [] then KECCAK256_NULL else (b ++ List.replicate 32 0).take 32

/-! ## RLP round-trip lemmas -/

theorem fromBE_append (l : Bytes) (x : Nat) :
    fromBE (l ++ [x]) = fromBE l * 256 + x := by
  simp [fromBE, List.foldl_append]

theorem fromBE_beBytes (n : Nat) : fromBE (beBytes n) = n := by
  induction n using Nat.strong_induction_on with
  | _ n ih =>
    by_cases h : n = 0
    · subst h; rw [beBytes]; simp [fromBE]
    · rw [beBytes, dif_neg h, fromBE_append,
        ih (n / 256) (Nat.div_lt_self (Nat.pos_of_ne_zero h) (by decide))]
      omega

theorem beBytes_ne_nil (n : Nat) (h : n ≠ 0) : beBytes n ≠ [] := by
  rw [beBytes, dif_neg h]
  simp

theorem beBytes_length_le : ∀ (k n : Nat), n < 2 ^ (8 * k) →
    (beBytes n).length ≤ k := by
  intro k
  induction k with
  | zero =>
    intro n h
    simp only [Nat.mul_zero, pow_zero, Nat.lt_one_iff] at h
    subst h
    rw [beBytes]
    simp
  | succ k ih =>
    intro n h
    by_cases h0 : n = 0
    · subst h0; rw [beBytes]; simp
    · rw [beBytes, dif_neg h0]
      have hdiv : n / 256 < 2 ^ (8 * k) := by
        have h2 : (2 : Nat) ^ (8 * (k + 1)) = 2 ^ (8 * k) * 256 := by ring
        rw [h2] at h
        exact (Nat.div_lt_iff_lt_mul (by decide)).mpr h
      have := ih (n / 256) hdiv
      simp only [List.length_append, List.length_cons, List.length_nil]
      omega

theorem encStr_ne_nil (b : Bytes) : encStr b ≠ [] := by
  unfold encStr encodeLength
  split
  · rename_i h
    intro hc
    rw [hc] at h
    simp at h
  · split <;> simp

theorem encStr_length_le (b : Bytes) (hb : b.length < 2 ^ 64) :
    (encStr b).length ≤ b.length + 9 := by
  unfold encStr encodeLength
  split
  · omega
  · split
    · simp
    · have h8 : (beBytes b.length).length ≤ 8 :=
        beBytes_length_le 8 b.length (by exact hb)
      simp only [List.cons_append, List.length_cons, List.length_append]
      omega

theorem decStr_encStr (b rest : Bytes) (hb : b.length < 2 ^ 64) :
    decStr (encStr b ++ rest) = some (b, rest) := by
  by_cases h1 : b.length = 1 ∧ b.headI < 128
  · obtain ⟨a, rfl⟩ := List.length_eq_one.mp h1.1
    have ha : a < 128 := by simpa using h1.2
    rw [encStr, if_pos h1]
    simp [decStr, ha]
  · rw [encStr, if_neg h1]
    by_cases h2 : b.length < 56
    · rw [encodeLength, if_pos h2]
      show decStr ((b.length + 128) :: (b ++ rest)) = some (b, rest)
      rw [decStr]
      rw [if_neg (by omega), if_pos (by omega)]
      have hlen : b.length + 128 - 128 = b.length := by omega
      rw [hlen, if_neg (by simp)]
      rw [List.take_left, List.drop_left]
    · rw [encodeLength, if_neg h2]
      have hLpos : b.length ≠ 0 := by omega
      have hll1 : 1 ≤ (beBytes b.length).length := by
        have := beBytes_ne_nil b.length hLpos
        cases hbb : beBytes b.length with
        | nil => exact absurd hbb this
        | cons y ys => simp
      have hll8 : (beBytes b.length).length ≤ 8 :=
        beBytes_length_le 8 b.length (by exact hb)
      simp only [List.cons_append, List.append_assoc]
      show decStr (((beBytes b.length).length + 128 + 55) ::
        (beBytes b.length ++ (b ++ rest))) = some (b, rest)
      rw [decStr]
      rw [if_neg (by omega), if_neg (by omega), if_pos (by omega)]
      have hll : (beBytes b.length).length + 128 + 55 - 183 =
          (beBytes b.length).length := by omega
      rw [hll, if_neg (by simp)]
      rw [List.take_left, List.drop_left, fromBE_beBytes]
      rw [if_neg (by simp)]
      rw [List.take_left, List.drop_left]

theorem decItems_eq (b item rest : Bytes)
    (hne : b ≠ []) (hd : decStr b = some (item, rest)) :
    decItems b = (decItems rest).map (fun items => item :: items) := by
  rw [decItems, dif_neg hne]
  split
  · rename_i heq
    rw [hd] at heq
    cases heq
  · rename_i item2 rest2 heq
    rw [hd] at heq
    injection heq with heq2
    injection heq2 with he1 he2
    rw [he1, he2]

theorem decItems_encStr_flatten : ∀ (xs : List Bytes),
    (∀ x ∈ xs, x.length < 2 ^ 64) →
    decItems ((xs.map encStr).flatten) = some xs := by
  intro xs
  induction xs with
  | nil =>
    intro _
    rw [decItems]
    simp
  | cons x t ih =>
    intro hx
    have hflat : ((x :: t).map encStr).flatten =
        encStr x ++ (t.map encStr).flatten := by simp
    have hxlen : x.length < 2 ^ 64 := hx x (by simp)
    have hdec : decStr (encStr x ++ (t.map encStr).flatten) =
        some (x, (t.map encStr).flatten) := decStr_encStr _ _ hxlen
    have hne : encStr x ++ (t.map encStr).flatten ≠ [] := by
      intro hc
      exact encStr_ne_nil x (List.append_eq_nil.mp hc).1
    rw [hflat, decItems_eq _ _ _ hne hdec,
      ih (fun y hy => hx y (by simp [hy]))]
    rfl

theorem rlpDecodeStrings_encList (xs : List Bytes)
    (h1 : ∀ x ∈ xs, x.length < 2 ^ 64)
    (h2 : ((xs.map encStr).flatten).length < 2 ^ 64) :
    rlpDecodeStrings (encList xs) = some xs := by
  by_cases hp : ((xs.map encStr).flatten).length < 56
  · show rlpDecodeStrings (encodeLength ((xs.map encStr).flatten).length 192 ++
      (xs.map encStr).flatten) = some xs
    rw [encodeLength, if_pos hp]
    show rlpDecodeStrings ((((xs.map encStr).flatten).length + 192) ::
      (xs.map encStr).flatten) = some xs
    rw [rlpDecodeStrings]
    rw [if_neg (by omega), if_pos (by omega), if_pos (by omega)]
    exact decItems_encStr_flatten xs h1
  · show rlpDecodeStrings (encodeLength ((xs.map encStr).flatten).length 192 ++
      (xs.map encStr).flatten) = some xs
    rw [encodeLength, if_neg hp]
    have hLpos : ((xs.map encStr).flatten).length ≠ 0 := by omega
    have hll1 : 1 ≤ (beBytes ((xs.map encStr).flatten).length).length := by
      have := beBytes_ne_nil _ hLpos
      cases hbb : beBytes ((xs.map encStr).flatten).length with
      | nil => exact absurd hbb this
      | cons y ys => simp
    show rlpDecodeStrings
      (((beBytes ((xs.map encStr).flatten).length).length + 192 + 55) ::
        (beBytes ((xs.map encStr).flatten).length ++ (xs.map encStr).flatten)) =
      some xs
    rw [rlpDecodeStrings]
    rw [if_neg (by omega), if_neg (by omega)]
    have hll : (beBytes ((xs.map encStr).flatten).length).length + 192 + 55 - 247 =
        (beBytes ((xs.map encStr).flatten).length).length := by omega
    rw [hll]
    rw [if_pos (by simp)]
    rw [List.take_left, List.drop_left, fromBE_beBytes]
    rw [if_pos rfl]
    exact decItems_encStr_flatten xs h1

/-! ## Helper lemmas and witness fixtures -/

/-- All entries of a byte string are byte values. -/
def wfBytes (b : Bytes) : Prop := ∀ x ∈ b, x < 256

instance (b : Bytes) : Decidable (wfBytes b) :=
  List.decidableBAll (fun x => x < 256) b

/-- A character is a lowercase hexadecimal digit. -/
def isLowerHexDigit (ch : Char) : Bool :=
  decide (('0' ≤ ch ∧ ch ≤ '9') ∨ ('a' ≤ ch ∧ ch ≤ 'f'))

theorem hexDigit_isLower : ∀ n < 16, isLowerHexDigit (hexDigit n) = true := by
  decide

theorem hexChars_lower (b : Bytes) (hb : wfBytes b) :
    (hexChars b).all isLowerHexDigit = true := by
  induction b with
  | nil => rfl
  | cons x rest ih =>
    have hx : x < 256 := hb x (by simp)
    have hrest : wfBytes rest := fun y hy => hb y (by simp [hy])
    simp only [hexChars, List.all_cons, Bool.and_eq_true]
    refine ⟨hexDigit_isLower _ (by omega), hexDigit_isLower _ (by omega), ih hrest⟩

theorem isHex0xLower_hex0x (b : Bytes) (hb : wfBytes b) :
    isHex0xLower (hex0x b) = true := by
  show (hexChars b).all isLowerHexDigit = true
  exact hexChars_lower b hb

/-- First-match association lookup ignores a suffix whenever the key is
already bound in the prefix; this is what keeps previously persisted trie
versions addressable after a copy-on-write put. -/
theorem lookupA_append_of_isSome {α : Type} (l l2 : List (Bytes × α)) (k : Bytes)
    (h : (lookupA l k).isSome = true) : lookupA (l ++ l2) k = lookupA l k := by
  unfold lookupA at h ⊢
  rw [List.find?_append]
  cases hf : l.find? (fun p => p.1 == k) with
  | none => rw [hf] at h; simp at h
  | some p => simp [hf]

/-- A store whose `putRaw` fails. -/
def errRawTrie : Trie :=
  ⟨[], [], [], none, some StoreErr.storeFailure, none⟩

/-- A store whose `put` fails. -/
def errPutTrie : Trie :=
  ⟨[], [], [], some StoreErr.storeFailure, none, none⟩

/-- A store holding one (empty) persisted version under its root. -/
def oneVersionTrie : Trie :=
  ⟨[192], [([192], [])], [], none, none, none⟩

/-- A fresh default account: empty nonce and balance, empty-trie stateRoot,
empty-string codeHash. -/
def defaultAccount : Account :=
  ⟨[], [], KECCAK256_RLP, KECCAK256_NULL⟩

/-- The default account with its stateRoot pointing at the version persisted
in `oneVersionTrie`. -/
def boundAccount : Account :=
  ⟨[], [], [192], KECCAK256_NULL⟩

/-! ## Claims -/

/-- C1, divergence witness: with a store whose `putRaw` reports a
`StoreError` and the non-empty code `[1]`, `setCode` still replaces the
record's `codeHash` (the source assigns `this.codeHash = keccak256(code)`
before the write resolves), so the codeHash is not left unchanged as the
claim requires. -/
theorem c1_setCode_mutates_codeHash_despite_store_error :
    (Account.setCode hashModel defaultAccount errRawTrie [1]).cbErr =
      some StoreErr.storeFailure ∧
    (Account.setCode hashModel defaultAccount errRawTrie [1]).putRawCalls ≠ [] ∧
    (Account.setCode hashModel defaultAccount errRawTrie [1]).account.codeHash ≠
      defaultAccount.codeHash := by
  decide

/-- C2, divergence witness: the constructor's `switch` falls through, so a
one-element sequence floods every field with element 0 (making construction
throw the stateRoot length error instead of succeeding with defaults), and a
three-element sequence leaves `codeHash` equal to element 2 instead of its
default. -/
theorem c2_constructor_cascading_overwrite :
    mkAccount (some (DataInput.arr [[1]])) =
      Except.error CtorError.stateRootLength ∧
    mkAccount (some (DataInput.arr [[1], [2], List.replicate 32 3])) =
      Except.ok ⟨[1], [2], List.replicate 32 3, List.replicate 32 3⟩ :=
  ⟨rfl, rfl⟩

/-- C4: if the underlying `put` fails, `setStorage` leaves the record's
stateRoot exactly as it was and completes through its zero-argument callback
(no store error detail is exposed); if the `put` succeeds, the stateRoot is
advanced to the branched view's resulting root. -/
theorem c4_setStorage_failure_isolation (a : Account) (trie : Trie)
    (k v : Bytes) :
    (∀ e, trie.putErr = some e →
      (a.setStorage trie k v).account.stateRoot = a.stateRoot ∧
      (a.setStorage trie k v).cbCalls = [()]) ∧
    (trie.putErr = none →
      (a.setStorage trie k v).account.stateRoot =
        rootOf ((k, v) :: (lookupA trie.db a.stateRoot).getD [])) := by
  constructor
  · intro e he
    simp [Account.setStorage, Trie.putKV, Trie.copy, he]
  · intro he
    simp [Account.setStorage, Trie.putKV, Trie.copy, he]

theorem c4_setStorage_failure_isolation_witness :
    errPutTrie.putErr = some StoreErr.storeFailure ∧
    ((Account.setStorage defaultAccount errPutTrie [1] [2]).account.stateRoot =
      defaultAccount.stateRoot ∧
     (Account.setStorage defaultAccount errPutTrie [1] [2]).cbCalls = [()]) :=
  ⟨by decide,
   (c4_setStorage_failure_isolation defaultAccount errPutTrie [1] [2]).1
     StoreErr.storeFailure (by decide)⟩

/-- C5, counterexample: an account with empty nonce and balance, the
empty-string codeHash, but an all-zero stateRoot is reported empty by the
source `isEmpty`, refuting the claimed equivalence with the stricter
storage-aware definition. -/
theorem c5_isEmpty_counterexample :
    ¬ ((Account.isEmpty ⟨[], [], List.replicate 32 0, KECCAK256_NULL⟩) = true ↔
       (([] : Bytes) = [] ∧ ([] : Bytes) = [] ∧
        KECCAK256_NULL = KECCAK256_NULL ∧
        List.replicate 32 0 = KECCAK256_RLP)) := by
  decide

/-- C5, amended: the `isEmpty` of src/src/index.ts is equivalent to the
conjunction of the balance, nonce and codeHash conditions only, while the
historical variant of src/index.js additionally requires the stateRoot to be
the empty-trie root. -/
theorem c5_isEmpty_characterization (a : Account) :
    (a.isEmpty = true ↔
      (a.balance = [] ∧ a.nonce = [] ∧ a.codeHash = KECCAK256_NULL)) ∧
    (isEmptyV1 a = true ↔
      (a.balance = [] ∧ a.nonce = [] ∧ a.stateRoot = KECCAK256_RLP ∧
       a.codeHash = KECCAK256_NULL)) := by
  constructor <;> simp [Account.isEmpty, isEmptyV1, and_assoc]

/-- C7: `setCode` with empty code bytes never calls `putRaw`, sets the
record's codeHash to the empty-string hash and hands the callback an empty
byte string with no error; `getCode` on a record whose codeHash is the
empty-string hash never calls `getRaw` and returns the empty byte string. -/
theorem c7_empty_code_shortcut (keccak : Bytes → Bytes) (a : Account)
    (trie : Trie) (a2 : Account) (t2 : Trie)
    (hk : keccak [] = KECCAK256_NULL) (hc : a2.codeHash = KECCAK256_NULL) :
    (Account.setCode keccak a trie []).putRawCalls = [] ∧
    (Account.setCode keccak a trie []).account.codeHash = KECCAK256_NULL ∧
    (Account.setCode keccak a trie []).cbCodeHash = [] ∧
    (Account.setCode keccak a trie []).cbErr = none ∧
    (Account.getCode a2 t2).getRawCalls = [] ∧
    (Account.getCode a2 t2).cbValue = some [] := by
  unfold Account.setCode Account.getCode Account.isContract
  simp [hk, hc]

theorem c7_empty_code_shortcut_witness :
    hashModel [] = KECCAK256_NULL ∧
    ((Account.setCode hashModel defaultAccount oneVersionTrie []).putRawCalls = [] ∧
     (Account.setCode hashModel defaultAccount oneVersionTrie []).account.codeHash =
       KECCAK256_NULL ∧
     (Account.setCode hashModel defaultAccount oneVersionTrie []).cbCodeHash = [] ∧
     (Account.setCode hashModel defaultAccount oneVersionTrie []).cbErr = none ∧
     (Account.getCode defaultAccount oneVersionTrie).getRawCalls = [] ∧
     (Account.getCode defaultAccount oneVersionTrie).cbValue = some []) :=
  ⟨by decide,
   c7_empty_code_shortcut hashModel defaultAccount oneVersionTrie
     defaultAccount oneVersionTrie (by decide) (by decide)⟩

/-- C8: after defaulting, a stateRoot of length other than 32 fails
construction naming stateRoot, an accepted stateRoot with a codeHash of
length other than 32 fails naming codeHash, and two 32-byte hashes make
construction succeed with no partially-built record. -/
theorem c8_ctor_validation (n b s c : Option Bytes) :
    ((s.getD KECCAK256_RLP).length ≠ 32 →
      mkAccount (some (DataInput.obj n b s c)) =
        Except.error CtorError.stateRootLength) ∧
    ((s.getD KECCAK256_RLP).length = 32 →
     (c.getD KECCAK256_NULL).length ≠ 32 →
      mkAccount (some (DataInput.obj n b s c)) =
        Except.error CtorError.codeHashLength) ∧
    ((s.getD KECCAK256_RLP).length = 32 →
     (c.getD KECCAK256_NULL).length = 32 →
      mkAccount (some (DataInput.obj n b s c)) =
        Except.ok ⟨n.getD [], b.getD [], s.getD KECCAK256_RLP,
                   c.getD KECCAK256_NULL⟩) := by
  refine ⟨fun h1 => ?_, fun h1 h2 => ?_, fun h1 h2 => ?_⟩ <;>
    simp [mkAccount, finishCtor, h1, *]

theorem c8_ctor_validation_witness :
    ((some (List.replicate 32 0)).getD KECCAK256_RLP).length = 32 ∧
    ((some (List.replicate 32 255)).getD KECCAK256_NULL).length = 32 ∧
    mkAccount (some (DataInput.obj none none (some (List.replicate 32 0))
        (some (List.replicate 32 255)))) =
      Except.ok ⟨[], [], List.replicate 32 0, List.replicate 32 255⟩ :=
  ⟨by decide, by decide,
   (c8_ctor_validation none none (some (List.replicate 32 0))
       (some (List.replicate 32 255))).2.2 (by decide) (by decide)⟩

/-- C10: `setStorage` invokes its callback exactly once with zero arguments,
whether the underlying put succeeds or fails, so the callback's arguments
cannot distinguish the two outcomes. -/
theorem c10_setStorage_callback_once (a : Account) (trie : Trie)
    (k v : Bytes) :
    (a.setStorage trie k v).cbCalls = [()] := by
  cases hp : trie.putErr with
  | some e => simp [Account.setStorage, Trie.putKV, Trie.copy, hp]
  | none => simp [Account.setStorage, Trie.putKV, Trie.copy, hp]

/-- Field sizes realizable by the source record: stateRoot and codeHash are
exactly 32 bytes (the construction invariant) and nonce and balance fit in a
JS Buffer. -/
def wfSizes (a : Account) : Prop :=
  a.nonce.length < 2 ^ 32 ∧ a.balance.length < 2 ^ 32 ∧
    a.stateRoot.length = 32 ∧ a.codeHash.length = 32

/-- A byte string is a minimal big-endian integer encoding: no leading zero
byte (the empty string encodes zero). -/
def minimalBE (b : Bytes) : Prop := b = [] ∨ b.headI ≠ 0

/-- C3: feeding `serialize(a)` back to the constructor reproduces `a`
field-by-field for every record whose hash fields are 32 bytes and whose
nonce and balance are minimal big-endian integer encodings, and any record
decoded from such a canonical encoding re-serializes to exactly the original
bytes. -/
theorem c3_serialize_roundtrip (a : Account) (hw : wfSizes a)
    (hmn : minimalBE a.nonce) (hmb : minimalBE a.balance) :
    mkAccount (some (DataInput.bytes a.serialize)) = Except.ok a ∧
    (∀ a2, mkAccount (some (DataInput.bytes a.serialize)) = Except.ok a2 →
      a2.serialize = a.serialize) := by
  obtain ⟨n, bal, s, c⟩ := a
  obtain ⟨hw1, hw2, hw3, hw4⟩ := hw
  simp only at hw1 hw2 hw3 hw4
  have hdec : rlpDecodeStrings (Account.serialize ⟨n, bal, s, c⟩) =
      some [n, bal, s, c] := by
    show rlpDecodeStrings (encList [n, bal, s, c]) = some [n, bal, s, c]
    apply rlpDecodeStrings_encList
    · intro x hx
      simp only [List.mem_cons, List.not_mem_nil, or_false] at hx
      rcases hx with rfl | rfl | rfl | rfl <;> omega
    · have e1 : (encStr n).length ≤ n.length + 9 :=
        encStr_length_le n (by omega)
      have e2 : (encStr bal).length ≤ bal.length + 9 :=
        encStr_length_le bal (by omega)
      have e3 : (encStr s).length ≤ s.length + 9 :=
        encStr_length_le s (by omega)
      have e4 : (encStr c).length ≤ c.length + 9 :=
        encStr_length_le c (by omega)
      simp only [List.map_cons, List.map_nil, List.flatten,
        List.length_append, List.length_nil]
      omega
  have hmain : mkAccount (some (DataInput.bytes
      (Account.serialize ⟨n, bal, s, c⟩))) = Except.ok ⟨n, bal, s, c⟩ := by
    show (match rlpDecodeStrings (Account.serialize ⟨n, bal, s, c⟩) with
      | none => Except.error CtorError.rlpError
      | some xs => fromList xs) = Except.ok ⟨n, bal, s, c⟩
    rw [hdec]
    show finishCtor (assignFields [n, bal, s, c]) = Except.ok ⟨n, bal, s, c⟩
    have hassign : assignFields [n, bal, s, c] =
        ⟨some n, some bal, some s, some c⟩ := by
      simp [assignFields, applyElem, List.enum, List.enumFrom]
    rw [hassign]
    simp [finishCtor, hw3, hw4]
  refine ⟨hmain, fun a2 h2 => ?_⟩
  rw [hmain] at h2
  injection h2 with h3
  rw [h3]

theorem c3_serialize_roundtrip_witness :
    wfSizes defaultAccount ∧
    mkAccount (some (DataInput.bytes defaultAccount.serialize)) =
      Except.ok defaultAccount :=
  ⟨⟨by simp [defaultAccount], by simp [defaultAccount], rfl, rfl⟩,
   (c3_serialize_roundtrip defaultAccount
     ⟨by simp [defaultAccount], by simp [defaultAccount], rfl, rfl⟩
     (Or.inl rfl) (Or.inl rfl)).1⟩

/-- C6: a successful `setStorage` advances only the record's stateRoot (to
the branched view's resulting root) and leaves nonce, balance and codeHash
unchanged; the previous root remains addressable in the store, so a record
still holding it observes the pre-write value (or absence) for the written
key. -/
theorem c6_setStorage_frame_and_copy_on_write (a r2 : Account) (trie : Trie)
    (k v : Bytes)
    (hok : trie.putErr = none)
    (hroot : r2.stateRoot = a.stateRoot)
    (hbound : (lookupA trie.db a.stateRoot).isSome = true) :
    (a.setStorage trie k v).account.nonce = a.nonce ∧
    (a.setStorage trie k v).account.balance = a.balance ∧
    (a.setStorage trie k v).account.codeHash = a.codeHash ∧
    (a.setStorage trie k v).account.stateRoot =
      rootOf ((k, v) :: (lookupA trie.db a.stateRoot).getD []) ∧
    Account.getStorage r2 (a.setStorage trie k v).trie k =
      Account.getStorage r2 trie k := by
  have hdb : (a.setStorage trie k v).trie.db =
      trie.db ++ [(rootOf ((k, v) :: (lookupA trie.db a.stateRoot).getD []),
                   (k, v) :: (lookupA trie.db a.stateRoot).getD [])] := by
    simp [Account.setStorage, Trie.putKV, Trie.copy, hok]
  refine ⟨?_, ?_, ?_, ?_, ?_⟩
  · simp [Account.setStorage, Trie.putKV, Trie.copy, hok]
  · simp [Account.setStorage, Trie.putKV, Trie.copy, hok]
  · simp [Account.setStorage, Trie.putKV, Trie.copy, hok]
  · simp [Account.setStorage, Trie.putKV, Trie.copy, hok]
  · show lookupA ((lookupA (a.setStorage trie k v).trie.db r2.stateRoot).getD []) k =
        lookupA ((lookupA trie.db r2.stateRoot).getD []) k
    rw [hdb, hroot, lookupA_append_of_isSome _ _ _ hbound]

theorem c6_setStorage_frame_and_copy_on_write_witness :
    oneVersionTrie.putErr = none ∧
    boundAccount.stateRoot = boundAccount.stateRoot ∧
    (lookupA oneVersionTrie.db boundAccount.stateRoot).isSome = true ∧
    ((Account.setStorage boundAccount oneVersionTrie [1] [2]).account.nonce =
       boundAccount.nonce ∧
     (Account.setStorage boundAccount oneVersionTrie [1] [2]).account.balance =
       boundAccount.balance ∧
     (Account.setStorage boundAccount oneVersionTrie [1] [2]).account.codeHash =
       boundAccount.codeHash ∧
     (Account.setStorage boundAccount oneVersionTrie [1] [2]).account.stateRoot =
       rootOf ((⟨[1], [2]⟩ : Bytes × Bytes) ::
         (lookupA oneVersionTrie.db boundAccount.stateRoot).getD []) ∧
     Account.getStorage boundAccount
         (Account.setStorage boundAccount oneVersionTrie [1] [2]).trie [1] =
       Account.getStorage boundAccount oneVersionTrie [1]) :=
  ⟨rfl, rfl, by decide,
   c6_setStorage_frame_and_copy_on_write boundAccount boundAccount
     oneVersionTrie [1] [2] rfl rfl (by decide)⟩

/-- C9: the display operation with the labeled flag yields the object with
named fields nonce, balance, stateRoot, codeHash, and without it the plain
4-element array in field order; every rendered field is a 0x-prefixed
lowercase-hex string, and the operation reads the record without changing
it (it is a pure function of the record). -/
theorem c9_toJSON_display (a : Account)
    (h1 : wfBytes a.nonce) (h2 : wfBytes a.balance)
    (h3 : wfBytes a.stateRoot) (h4 : wfBytes a.codeHash) :
    a.toJSON true =
      JsonView.labeled
        ⟨hex0x a.nonce, hex0x a.balance, hex0x a.stateRoot, hex0x a.codeHash⟩ ∧
    a.toJSON false =
      JsonView.plain
        [hex0x a.nonce, hex0x a.balance, hex0x a.stateRoot, hex0x a.codeHash] ∧
    isHex0xLower (hex0x a.nonce) = true ∧
    isHex0xLower (hex0x a.balance) = true ∧
    isHex0xLower (hex0x a.stateRoot) = true ∧
    isHex0xLower (hex0x a.codeHash) = true :=
  ⟨rfl, rfl, isHex0xLower_hex0x _ h1, isHex0xLower_hex0x _ h2,
   isHex0xLower_hex0x _ h3, isHex0xLower_hex0x _ h4⟩

theorem c9_toJSON_display_witness :
    wfBytes defaultAccount.codeHash ∧
    Account.toJSON defaultAccount false =
      JsonView.plain [hex0x [], hex0x [], hex0x KECCAK256_RLP,
        hex0x KECCAK256_NULL] :=
  ⟨by decide,
   (c9_toJSON_display defaultAccount (by decide) (by decide) (by decide)
     (by decide)).2.1⟩

end EthAccount
